import Mathlib

/-!
# pi-readcache — formal model of the replay/trust core

A shallow embedding of the correctness core of the `pi-readcache` extension:
the metadata codec (`src/meta.ts`), the replay engine and trust state machine
(`src/replay.ts`), the decision-time base selection and sensitive-path bypass
(`src/tool.ts`), the range normalization (`src/path.ts`), and the
content-addressed object store (`src/object-store.ts`).

JavaScript `Map`s are modelled as association lists with `Map`-faithful
`get`/`set`/`delete` operations; JS numbers appearing in validated records are
modelled as `Int` (the validators only accept integers); strings are Lean
`String`s, with the handful of string primitives the source uses (`basename`,
`toLowerCase`, `startsWith`, `endsWith`, digit parsing for the scope-key
pattern) re-implemented structurally below.
-/

namespace PiReadcache

/-! ## String primitives -/

def lowerChars (l : List Char) : List Char := l.map Char.toLower

def splitOnChar (sep : Char) : List Char → List (List Char)
  | [] => [[]]
  | c :: rest =>
    let r := splitOnChar sep rest
    if c = sep then [] :: r
    else
      match r with
      | [] => [[c]]
      | g :: gs => (c :: g) :: gs

/-- Embeds `node:path` `basename`: the last `/`-separated component. -/
def baseNameChars (l : List Char) : List Char :=
  ((splitOnChar '/' l).getLast?).getD l

def startsWithChars : List Char → List Char → Bool
  | [], _ => true
  | _ :: _, [] => false
  | p :: ps, c :: cs => p = c && startsWithChars ps cs

def strStartsWith (s pat : String) : Bool := startsWithChars pat.data s.data

def strEndsWith (s pat : String) : Bool := startsWithChars pat.data.reverse s.data.reverse

def strLower (s : String) : String := ⟨lowerChars s.data⟩

def baseName (s : String) : String := ⟨baseNameChars s.data⟩

def strDrop (s : String) (n : Nat) : String := ⟨s.data.drop n⟩

def digitVal (c : Char) : Option Nat :=
  if c.isDigit then some (c.toNat - '0'.toNat) else none

def parseNatAux : List Char → Nat → Option Nat
  | [], acc => some acc
  | c :: cs, acc =>
    match digitVal c with
    | some d => parseNatAux cs (acc * 10 + d)
    | none => none

/-- Embeds `Number.parseInt` restricted to the all-digit, non-empty strings matched by
the `\d+` groups of the scope-key pattern. -/
def parseNatChars (l : List Char) : Option Nat :=
  match l with
  | [] => none
  | _ => parseNatAux l 0

/-! ## Constants (`src/constants.ts`) -/

def SCOPE_FULL : String := "full"

def READCACHE_META_VERSION : Int := 1

def READCACHE_CUSTOM_TYPE : String := "pi-readcache"

def DEFAULT_EXCLUDED_PATH_PATTERNS : List String := [".env*", "*.pem", "*.key", "*.p12"]

def OVERLAY_SEQ_START : Nat := 1000000000

def scopeRange (start endLine : Int) : String :=
  "r:" ++ toString start ++ ":" ++ toString endLine

/-! ## Data model (`src/types.ts`) -/

structure ScopeTrust where
  hash : String
  seq : Nat
deriving DecidableEq, Repr

/-- Association-list model of a JS `Map`: `get`. -/
def lookupA {α : Type} : List (String × α) → String → Option α
  | [], _ => none
  | (k, v) :: rest, key => if k = key then some v else lookupA rest key

/-- Association-list model of a JS `Map`: `set` (replace or append). -/
def insertA {α : Type} : List (String × α) → String → α → List (String × α)
  | [], key, v => [(key, v)]
  | (k, w) :: rest, key, v =>
    if k = key then (key, v) :: rest else (k, w) :: insertA rest key v

/-- Association-list model of a JS `Map`: `delete`. -/
def eraseA {α : Type} : List (String × α) → String → List (String × α)
  | [], _ => []
  | (k, w) :: rest, key =>
    if k = key then eraseA rest key else (k, w) :: eraseA rest key

abbrev ScopeMap := List (String × ScopeTrust)

abbrev KnowledgeMap := List (String × ScopeMap)

/-- Embeds `getTrust` from `src/replay.ts`. -/
def getTrust (knowledge : KnowledgeMap) (pathKey scopeKey : String) : Option ScopeTrust :=
  (lookupA knowledge pathKey).bind (fun scopes => lookupA scopes scopeKey)

/-- Embeds `setTrust` from `src/replay.ts` (`ensureScopeMap` + `set`). -/
def setTrust (knowledge : KnowledgeMap) (pathKey scopeKey hash : String) (seq : Nat) :
    KnowledgeMap :=
  insertA knowledge pathKey (insertA ((lookupA knowledge pathKey).getD []) scopeKey ⟨hash, seq⟩)

/-! ## Metadata codec (`src/meta.ts`) -/

/-- The raw, as-yet unvalidated record shape carried in a session entry's
details area (a `details.readcache` candidate). -/
structure RawReadMeta where
  v : Int
  pathKey : String
  scopeKey : String
  servedHash : String
  baseHash : Option String
  mode : String
  totalLines : Int
  rangeStart : Int
  rangeEnd : Int
  bytes : Int
deriving DecidableEq, Repr

/-- A validated `ReadCacheMetaV1` as produced by `parseReadCacheMetaV1`. -/
structure ReadCacheMetaV1 where
  pathKey : String
  scopeKey : String
  servedHash : String
  baseHash : Option String
  mode : String
  totalLines : Int
  rangeStart : Int
  rangeEnd : Int
  bytes : Int
deriving DecidableEq, Repr

/-- Embeds `normalizeReadCacheMode` from `src/meta.ts`. -/
def normalizeReadCacheMode (value : String) : Option String :=
  if value = "full" then some "full"
  else if value = "unchanged" then some "unchanged"
  else if value = "unchanged_range" then some "unchanged_range"
  else if value = "diff" then some "diff"
  else if value = "baseline_fallback" then some "baseline_fallback"
  else none

/-- Embeds `isScopeKey` from `src/meta.ts`: the `full` sentinel or `r:<posint>:<posint>`
with `end ≥ start`. -/
def isScopeKey (s : String) : Bool :=
  if s = SCOPE_FULL then true
  else
    match splitOnChar ':' s.data with
    | [r, a, b] =>
      r = ['r'] &&
        (match parseNatChars a, parseNatChars b with
         | some st, some en => decide (0 < st) && decide (st ≤ en)
         | _, _ => false)
    | _ => false

/-- Embeds `parseReadCacheMetaV1` from `src/meta.ts` (the optional `debug` payload is
absent from the records modelled here, matching entries without a `debug`
field). -/
def parseReadCacheMetaV1 (value : RawReadMeta) : Option ReadCacheMetaV1 :=
  if value.v ≠ READCACHE_META_VERSION then none
  else if value.pathKey.length = 0 then none
  else if ¬ isScopeKey value.scopeKey then none
  else if value.servedHash.length = 0 then none
  else
    match normalizeReadCacheMode value.mode with
    | none => none
    | some mode =>
      let baseOk :=
        if mode = "unchanged" ∨ mode = "unchanged_range" ∨ mode = "diff" then
          match value.baseHash with
          | none => false
          | some b => decide (b.length ≠ 0)
        else
          match value.baseHash with
          | none => true
          | some b => decide (b.length ≠ 0)
      if baseOk = false then none
      else if ¬ (0 < value.totalLines ∧ 0 < value.rangeStart ∧ 0 < value.rangeEnd
            ∧ value.rangeStart ≤ value.rangeEnd ∧ 0 ≤ value.bytes) then none
      else
        some ⟨value.pathKey, value.scopeKey, value.servedHash, value.baseHash, mode,
          value.totalLines, value.rangeStart, value.rangeEnd, value.bytes⟩

/-- The raw record shape of a persisted invalidation. -/
structure RawInvalidation where
  v : Int
  kind : String
  pathKey : String
  scopeKey : String
  atMs : Int
deriving DecidableEq, Repr

/-- Embeds `isReadCacheInvalidationV1` from `src/meta.ts`. -/
def isReadCacheInvalidationV1 (d : RawInvalidation) : Bool :=
  decide (d.v = READCACHE_META_VERSION) && decide (d.kind = "invalidate")
    && decide (0 < d.pathKey.length) && isScopeKey d.scopeKey && decide (0 < d.atMs)

/-! ## Session entries -/

/-- The tagged shapes of session entries the core inspects: a tool-result
message (possibly carrying a `readcache` record), a custom entry (possibly a
persisted invalidation), a compaction marker, or anything else. -/
inductive SessionEntry where
  | message (id : String) (parentId : Option String) (role : String) (toolName : String)
      (readcache : Option RawReadMeta)
  | custom (id : String) (parentId : Option String) (customType : String)
      (data : RawInvalidation)
  | compaction (id : String) (parentId : Option String) (firstKeptEntryId : Option String)
  | other (id : String) (parentId : Option String)
deriving DecidableEq, Repr

/-- Embeds `extractReadMetaFromSessionEntry` from `src/meta.ts`. -/
def extractReadMetaFromSessionEntry : SessionEntry → Option ReadCacheMetaV1
  | .message _ _ role toolName readcache =>
    if role = "toolResult" ∧ toolName = "read" then readcache.bind parseReadCacheMetaV1
    else none
  | _ => none

/-- Embeds `extractInvalidationFromSessionEntry` from `src/meta.ts`. -/
def extractInvalidationFromSessionEntry : SessionEntry → Option RawInvalidation
  | .custom _ _ customType data =>
    if customType = READCACHE_CUSTOM_TYPE ∧ isReadCacheInvalidationV1 data then some data
    else none
  | _ => none

def isCompactionEntry : SessionEntry → Bool
  | .compaction _ _ _ => true
  | _ => false

/-! ## Replay engine & trust state machine (`src/replay.ts`) -/

/-- Embeds `applyReadMetaTransition` from `src/replay.ts`. The anchor branch tests the
mode literals `"full"` and `"full_fallback"` exactly as the source does. The
source binds `fullTrust = getTrust(knowledge, pathKey, SCOPE_FULL)` and
`rangeTrust = scopeKey === SCOPE_FULL ? undefined : getTrust(knowledge,
pathKey, scopeKey)` up front; those bindings are inlined at their use sites
here. -/
def applyReadMetaTransition (knowledge : KnowledgeMap) (meta : ReadCacheMetaV1) (seq : Nat) :
    KnowledgeMap :=
  if meta.mode = "full" ∨ meta.mode = "full_fallback" then
    setTrust knowledge meta.pathKey meta.scopeKey meta.servedHash seq
  else if meta.mode = "unchanged" ∧ meta.scopeKey = SCOPE_FULL then
    match meta.baseHash with
    | none => knowledge
    | some b =>
      if b = "" then knowledge
      else
        match getTrust knowledge meta.pathKey SCOPE_FULL with
        | none => knowledge
        | some ft =>
          if ft.hash ≠ b then knowledge
          else if meta.servedHash ≠ b then knowledge
          else setTrust knowledge meta.pathKey SCOPE_FULL meta.servedHash seq
  else if meta.mode = "diff" ∧ meta.scopeKey = SCOPE_FULL then
    match meta.baseHash with
    | none => knowledge
    | some b =>
      if b = "" then knowledge
      else
        match getTrust knowledge meta.pathKey SCOPE_FULL with
        | none => knowledge
        | some ft =>
          if ft.hash ≠ b then knowledge
          else setTrust knowledge meta.pathKey SCOPE_FULL meta.servedHash seq
  else if meta.mode = "unchanged_range" ∧ meta.scopeKey ≠ SCOPE_FULL then
    match meta.baseHash with
    | none => knowledge
    | some b =>
      if b = "" then knowledge
      else if ((match (if meta.scopeKey = SCOPE_FULL then none
                  else getTrust knowledge meta.pathKey meta.scopeKey) with
            | some t => decide (t.hash = b)
            | none => false)
          || (match getTrust knowledge meta.pathKey SCOPE_FULL with
            | some t => decide (t.hash = b)
            | none => false)) = true then
        setTrust knowledge meta.pathKey meta.scopeKey meta.servedHash seq
      else knowledge
  else knowledge

/-- Embeds `applyInvalidation` from `src/replay.ts`. -/
def applyInvalidation (knowledge : KnowledgeMap) (inv : RawInvalidation) : KnowledgeMap :=
  match lookupA knowledge inv.pathKey with
  | none => knowledge
  | some scopes =>
    if inv.scopeKey = SCOPE_FULL then eraseA knowledge inv.pathKey
    else
      let remaining := eraseA scopes inv.scopeKey
      if remaining.isEmpty then eraseA knowledge inv.pathKey
      else insertA knowledge inv.pathKey remaining

structure ReplayBoundary where
  startIndex : Nat
  boundaryKey : String
deriving DecidableEq, Repr

/-- Index and id of the latest compaction entry (the source scans from the end
of the branch; this forward recursion keeps the last find, which is the same
entry). -/
def lastCompaction : List SessionEntry → Nat → Option (Nat × String)
  | [], _ => none
  | e :: rest, i =>
    match lastCompaction rest (i + 1) with
    | some r => some r
    | none =>
      match e with
      | .compaction id _ _ => some (i, id)
      | _ => none

/-- Embeds `findReplayStartIndex` from `src/replay.ts`: strictly `latest compaction + 1`
(clamped), ignoring `firstKeptEntryId`. -/
def findReplayStartIndex (branchEntries : List SessionEntry) : ReplayBoundary :=
  match lastCompaction branchEntries 0 with
  | some (c, id) => ⟨min (c + 1) branchEntries.length, "compaction:" ++ id⟩
  | none => ⟨0, "root"⟩

def replayAux : List SessionEntry → KnowledgeMap → Nat → KnowledgeMap
  | [], knowledge, _ => knowledge
  | e :: rest, knowledge, seq =>
    match extractReadMetaFromSessionEntry e with
    | some meta => replayAux rest (applyReadMetaTransition knowledge meta (seq + 1)) (seq + 1)
    | none =>
      match extractInvalidationFromSessionEntry e with
      | some inv => replayAux rest (applyInvalidation knowledge inv) seq
      | none => replayAux rest knowledge seq

/-- Embeds `replayKnowledgeFromBranch` from `src/replay.ts` (the start index is clamped
to the window). -/
def replayKnowledgeFromBranch (branchEntries : List SessionEntry) (startIndex : Nat) :
    KnowledgeMap :=
  replayAux (branchEntries.drop (min startIndex branchEntries.length)) [] 0

/-- Number of entries in a window that yield a valid `ReadCacheMetaV1`; each of
these consumes one replay sequence number. -/
def countValidMetas (entries : List SessionEntry) : Nat :=
  entries.countP (fun e => (extractReadMetaFromSessionEntry e).isSome)

/-! ## Overlay runtime (`src/replay.ts`) -/

structure OverlayState where
  leafId : Option String
  knowledge : KnowledgeMap
deriving DecidableEq, Repr

structure ReplayRuntimeState where
  memoByLeaf : List (String × KnowledgeMap)
  overlayBySession : List (String × OverlayState)
  nextOverlaySeq : Nat
deriving DecidableEq, Repr

def createReplayRuntimeState : ReplayRuntimeState :=
  ⟨[], [], OVERLAY_SEQ_START⟩

/-- The session-manager view the replay runtime consumes. -/
structure SessionView where
  sessionId : String
  leafId : Option String
  branch : List SessionEntry
  allEntries : List SessionEntry
deriving Repr

/-- Embeds `ensureOverlayForLeaf` from `src/replay.ts`. -/
def ensureOverlayForLeaf (rt : ReplayRuntimeState) (sessionId : String)
    (leafId : Option String) : OverlayState × ReplayRuntimeState :=
  match lookupA rt.overlayBySession sessionId with
  | some existing =>
    if existing.leafId = leafId then (existing, rt)
    else
      let fresh : OverlayState := ⟨leafId, []⟩
      (fresh, { rt with overlayBySession := insertA rt.overlayBySession sessionId fresh })
  | none =>
    let fresh : OverlayState := ⟨leafId, []⟩
    (fresh, { rt with overlayBySession := insertA rt.overlayBySession sessionId fresh })

/-- Embeds `overlaySet` from `src/replay.ts`: stamps `nextOverlaySeq` and increments it. -/
def overlaySet (rt : ReplayRuntimeState) (sm : SessionView)
    (pathKey scopeKey servedHash : String) : ReplayRuntimeState :=
  let pair := ensureOverlayForLeaf rt sm.sessionId sm.leafId
  let seq := pair.2.nextOverlaySeq
  { pair.2 with
    nextOverlaySeq := seq + 1,
    overlayBySession :=
      insertA pair.2.overlayBySession sm.sessionId
        { pair.1 with knowledge := setTrust pair.1.knowledge pathKey scopeKey servedHash seq } }

/-- The sequence number `overlaySet` will stamp for the next decision. -/
def overlayAssignedSeq (rt : ReplayRuntimeState) : Nat := rt.nextOverlaySeq

/-- The overlay knowledge currently held for a session. -/
def overlayKnowledgeOf (rt : ReplayRuntimeState) (sessionId : String) : KnowledgeMap :=
  match lookupA rt.overlayBySession sessionId with
  | some ov => ov.knowledge
  | none => []

/-! ## Decision engine pieces (`src/tool.ts`) -/

/-- Embeds `selectBaseTrust` from `src/tool.ts`. -/
def selectBaseTrust (pathKnowledge : Option ScopeMap) (scopeKey : String)
    (rangeScopeBlocked : Bool) : Option ScopeTrust :=
  match pathKnowledge with
  | none => none
  | some pk =>
    if scopeKey = SCOPE_FULL then lookupA pk SCOPE_FULL
    else if rangeScopeBlocked then none
    else
      match lookupA pk scopeKey, lookupA pk SCOPE_FULL with
      | none, fullTrust => fullTrust
      | some exactTrust, none => some exactTrust
      | some exactTrust, some fullTrust =>
        if fullTrust.seq ≤ exactTrust.seq then some exactTrust else some fullTrust

/-- One pattern test of `isExcludedPath` from `src/tool.ts`. -/
def matchesExcludedPattern (lowerBase pattern : String) : Bool :=
  if pattern = ".env*" then strStartsWith lowerBase ".env"
  else if strStartsWith pattern "*" then strEndsWith lowerBase (strDrop pattern 1)
  else lowerBase = pattern

/-- Embeds `isExcludedPath` from `src/tool.ts`: lowercased basename against
`DEFAULT_EXCLUDED_PATH_PATTERNS`. -/
def isExcludedPath (pathKey : String) : Bool :=
  DEFAULT_EXCLUDED_PATH_PATTERNS.any (matchesExcludedPattern (strLower (baseName pathKey)))

/-- Embeds `buildUnchangedMarker` from `src/tool.ts`. -/
def buildUnchangedMarker (scopeKey : String) (start endLine totalLines : Int)
    (outsideRangeChanged : Bool) : String :=
  if scopeKey = SCOPE_FULL then
    "[readcache: unchanged, " ++ toString totalLines ++ " lines]"
  else if outsideRangeChanged then
    "[readcache: unchanged in lines " ++ toString start ++ "-" ++ toString endLine
      ++ "; changes exist outside this range]"
  else
    "[readcache: unchanged in lines " ++ toString start ++ "-" ++ toString endLine
      ++ " of " ++ toString totalLines ++ "]"

/-! ## Range normalization (`src/path.ts`) -/

structure NormalizedRange where
  start : Int
  endLine : Int
  totalLines : Int
deriving DecidableEq, Repr

/-- Embeds `normalizeOffsetLimit` from `src/path.ts`; `none` models a thrown
validation error (non-positive offset/limit, or offset beyond end of file).
The `Number.isInteger` checks hold by typing. -/
def normalizeOffsetLimit (offset limit : Option Int) (totalLines : Int) :
    Option NormalizedRange :=
  if (match offset with | some o => decide (o ≤ 0) | none => false) = true then none
  else if (match limit with | some l => decide (l ≤ 0) | none => false) = true then none
  else
    let normalizedTotalLines := max 1 totalLines
    let start := offset.getD 1
    if normalizedTotalLines < start then none
    else
      let unclampedEnd := match limit with | some l => start + l - 1 | none => normalizedTotalLines
      some ⟨start, min unclampedEnd normalizedTotalLines, normalizedTotalLines⟩

/-- Embeds `scopeKeyForRange` from `src/path.ts`. -/
def scopeKeyForRange (start endLine totalLines : Int) : String :=
  if start = 1 ∧ endLine = totalLines then SCOPE_FULL
  else scopeRange start endLine

/-! ## Object store (`src/object-store.ts`) -/

def isLowerHexChar (c : Char) : Bool :=
  decide (('0' ≤ c ∧ c ≤ '9') ∨ ('a' ≤ c ∧ c ≤ 'f'))

/-- Embeds `ensureValidHash`'s pattern `^[a-f0-9]{64}$`. -/
def isValidHash (hash : String) : Bool :=
  decide (hash.data.length = 64) && hash.data.all isLowerHexChar

/-- Embeds `objectPathForHash` from `src/object-store.ts`. -/
def objectPathForHash (repoRoot hash : String) : String :=
  repoRoot ++ "/.pi/readcache/objects/sha256-" ++ hash ++ ".txt"

/-- Filesystem state relevant to the store: the `objects/` directory and the
`tmp/` directory, each as path-to-content maps. -/
structure ObjectStore where
  objects : List (String × String)
  tmps : List (String × String)
deriving DecidableEq, Repr

/-- What other writers did between this call's existence check and its rename:
nothing, or a concurrent writer landed the object first (in which case the
rename either reports a collision, as on platforms raising `EEXIST`, or
replaces the freshly-written identical object, as POSIX rename does). -/
inductive PersistRace where
  | isolated
  | concurrent (otherContent : String) (renameReportsCollision : Bool)
deriving DecidableEq, Repr

structure PersistObjectResult where
  hash : String
  path : String
  written : Bool
deriving DecidableEq, Repr

/-- Embeds `persistObjectIfAbsent` from `src/object-store.ts`; `none` models the
rethrow of a non-`EEXIST` error (invalid hash). `tempName` is the unique
temp-file name built from pid/timestamp/random suffix. -/
def persistObjectIfAbsent (σ : ObjectStore) (repoRoot hash text tempName : String)
    (race : PersistRace) : Option (PersistObjectResult × ObjectStore) :=
  if isValidHash hash = false then none
  else
    let objectPath := objectPathForHash repoRoot hash
    if (lookupA σ.objects objectPath).isSome then some (⟨hash, objectPath, false⟩, σ)
    else if (lookupA σ.tmps tempName).isSome then
      -- `open(tempPath, "wx")` raised `EEXIST`; caught: temp was not created.
      some (⟨hash, objectPath, false⟩, σ)
    else
      let withTemp : ObjectStore := { σ with tmps := insertA σ.tmps tempName text }
      match race with
      | .isolated =>
        some (⟨hash, objectPath, true⟩,
          { objects := insertA withTemp.objects objectPath text,
            tmps := eraseA withTemp.tmps tempName })
      | .concurrent other collision =>
        let raced : ObjectStore :=
          { withTemp with objects := insertA withTemp.objects objectPath other }
        if collision then
          -- `EEXIST` from rename: unlink the temp file and report `written: false`.
          some (⟨hash, objectPath, false⟩, { raced with tmps := eraseA raced.tmps tempName })
        else
          some (⟨hash, objectPath, true⟩,
            { objects := insertA raced.objects objectPath text,
              tmps := eraseA raced.tmps tempName })

/-- Occurrences of a key in an association list (files on disk for that path). -/
def countA {α : Type} (l : List (String × α)) (key : String) : Nat :=
  l.countP (fun kv => decide (kv.1 = key))

/-! ## Completion paths (`src/tool.ts`) -/

/-- Embeds `persistAndOverlay` from `src/tool.ts`: the object persist is wrapped in a
`try`/`catch` whose failure is swallowed, after which the overlay is updated
unconditionally. `storeAfterAttempt` is whatever state the persist attempt
(successful or thrown-and-swallowed) left the store in. -/
def persistAndOverlay (storeAfterAttempt : ObjectStore) (rt : ReplayRuntimeState)
    (sm : SessionView) (pathKey scopeKey servedHash : String) :
    ObjectStore × ReplayRuntimeState :=
  (storeAfterAttempt, overlaySet rt sm pathKey scopeKey servedHash)

def buildReadcacheMeta (pathKey scopeKey servedHash mode : String)
    (totalLines rangeStart rangeEnd bytes : Int) (baseHash : Option String) :
    ReadCacheMetaV1 :=
  ⟨pathKey, scopeKey, servedHash, baseHash, mode, totalLines, rangeStart, rangeEnd, bytes⟩

/-- The hash-match completion path of `execute` in `src/tool.ts`: build the
metadata record and marker text, run `persistAndOverlay`, and return the
marker result. -/
def unchangedCompletion (storeAfterAttempt : ObjectStore) (rt : ReplayRuntimeState)
    (sm : SessionView) (pathKey scopeKey currentHash baseHash : String)
    (totalLines start endLine bytes : Int) :
    (String × ReadCacheMetaV1) × ObjectStore × ReplayRuntimeState :=
  let mode := if scopeKey = SCOPE_FULL then "unchanged" else "unchanged_range"
  let meta := buildReadcacheMeta pathKey scopeKey currentHash mode
    totalLines start endLine bytes (some baseHash)
  let marker := buildUnchangedMarker scopeKey start endLine totalLines false
  let after := persistAndOverlay storeAfterAttempt rt sm pathKey scopeKey currentHash
  ((marker, meta), after.1, after.2)

/-! ## Range-invalidation blocker -/

/-- An entry whose extracted `ReadCacheMetaV1` anchors `(pathKey, scopeKey)`,
with the anchor modes named by the specification. -/
def isAnchorEntryFor (e : SessionEntry) (pathKey scopeKey : String) : Bool :=
  match extractReadMetaFromSessionEntry e with
  | some m =>
    decide (m.pathKey = pathKey) && decide (m.scopeKey = scopeKey)
      && (decide (m.mode = "full") || decide (m.mode = "baseline_fallback"))
  | none => false

/-- An entry carrying a valid invalidation for `(pathKey, scopeKey)`. -/
def isInvalidationEntryFor (e : SessionEntry) (pathKey scopeKey : String) : Bool :=
  match extractInvalidationFromSessionEntry e with
  | some inv => decide (inv.pathKey = pathKey) && decide (inv.scopeKey = scopeKey)
  | none => false

/-- Scan from the leaf backwards: the latest relevant event decides. -/
def rangeBlockedAux (pathKey scopeKey : String) : List SessionEntry → Bool
  | [] => false
  | e :: rest =>
    if isAnchorEntryFor e pathKey scopeKey = true then false
    else if isInvalidationEntryFor e pathKey scopeKey = true then true
    else rangeBlockedAux pathKey scopeKey rest

/-- Modelled from the spec: the repository's `isRangeScopeBlockedByInvalidation`
(imported by `src/tool.ts` and exercised by `test/unit/replay.test.ts`) is not
among the sources; per §4.3 of the specification, range candidates for a range
scope `R` are unavailable when a range-scope invalidation for `R` was observed
with no subsequent range-scope anchor for `R`. -/
def isRangeScopeBlockedByInvalidation (branchEntries : List SessionEntry)
    (pathKey scopeKey : String) : Bool :=
  if scopeKey = SCOPE_FULL then false
  else rangeBlockedAux pathKey scopeKey branchEntries.reverse

/-! ## Auxiliary notions used by the statements -/

/-- Rewrite every compaction entry's `firstKeptEntryId` through `g`, leaving
everything else untouched. -/
def withFirstKept (g : Option String → Option String) : SessionEntry → SessionEntry
  | .compaction id parentId firstKept => .compaction id parentId (g firstKept)
  | e => e

/-- Every trust recorded in the map carries a sequence number at most `n`. -/
def SeqBound (knowledge : KnowledgeMap) (n : Nat) : Prop :=
  ∀ p s t, getTrust knowledge p s = some t → t.seq ≤ n

/-- The pre-clamp end line of a request: `start + limit - 1` when a limit is
given, else the whole file. -/
def unclampedEndFor (start : Int) (limit : Option Int) (totalLines : Int) : Int :=
  match limit with
  | some l => start + l - 1
  | none => totalLines

/-! ## Association-map lemmas -/

lemma lookupA_insertA_same {α : Type} (l : List (String × α)) (k : String) (v : α) :
    lookupA (insertA l k v) k = some v := by
  induction l with
  | nil => simp [insertA, lookupA]
  | cons hd tl ih =>
    by_cases h : hd.1 = k
    · simp [insertA, lookupA, h]
    · simpa [insertA, lookupA, h] using ih

lemma lookupA_insertA_ne {α : Type} (l : List (String × α)) (k k' : String) (v : α)
    (h : k ≠ k') : lookupA (insertA l k v) k' = lookupA l k' := by
  induction l with
  | nil => simp [insertA, lookupA, h]
  | cons hd tl ih =>
    by_cases hh : hd.1 = k
    · simp [insertA, lookupA, hh, h]
    · simp only [insertA, hh, if_false, lookupA]
      by_cases hk' : hd.1 = k' <;> simp [lookupA, hk', ih]

lemma lookupA_eraseA_same {α : Type} (l : List (String × α)) (k : String) :
    lookupA (eraseA l k) k = none := by
  induction l with
  | nil => simp [eraseA, lookupA]
  | cons hd tl ih =>
    by_cases h : hd.1 = k
    · simpa [eraseA, h] using ih
    · simpa [eraseA, lookupA, h] using ih

lemma lookupA_eraseA_ne {α : Type} (l : List (String × α)) (k k' : String)
    (h : k ≠ k') : lookupA (eraseA l k) k' = lookupA l k' := by
  induction l with
  | nil => simp [eraseA]
  | cons hd tl ih =>
    by_cases hh : hd.1 = k
    · have : hd.1 ≠ k' := by rw [hh]; exact h
      simp [eraseA, lookupA, hh, this, ih, h, Ne.symm h]
    · by_cases hk' : hd.1 = k' <;> simp [eraseA, lookupA, hh, hk', ih, Ne.symm h]

/-! ## `getTrust`/`setTrust` lemmas -/

lemma getTrust_nil (p s : String) : getTrust [] p s = none := rfl

lemma getTrust_setTrust_same (K : KnowledgeMap) (p s h : String) (q : Nat) :
    getTrust (setTrust K p s h q) p s = some ⟨h, q⟩ := by
  simp [getTrust, setTrust, lookupA_insertA_same]

lemma getTrust_setTrust_ne (K : KnowledgeMap) (p s h : String) (q : Nat) (p' s' : String)
    (hne : ¬(p = p' ∧ s = s')) :
    getTrust (setTrust K p s h q) p' s' = getTrust K p' s' := by
  by_cases hp : p = p'
  · subst hp
    have hs : s ≠ s' := fun hss => hne ⟨rfl, hss⟩
    cases hK : lookupA K p with
    | none =>
      simp [getTrust, setTrust, hK, lookupA_insertA_same,
        lookupA_insertA_ne _ _ _ _ hs, lookupA, hs]
    | some sm =>
      simp [getTrust, setTrust, hK, lookupA_insertA_same,
        lookupA_insertA_ne _ _ _ _ hs]
  · simp [getTrust, setTrust, lookupA_insertA_ne _ _ _ _ hp]

/-! ## `applyInvalidation` only removes trust -/

lemma getTrust_applyInvalidation_some (K : KnowledgeMap) (i : RawInvalidation)
    (p s : String) (t : ScopeTrust) (h : getTrust (applyInvalidation K i) p s = some t) :
    getTrust K p s = some t := by
  unfold applyInvalidation at h
  cases hK : lookupA K i.pathKey with
  | none => rwa [hK] at h
  | some scopes =>
    rw [hK] at h
    dsimp only at h
    by_cases hfull : i.scopeKey = SCOPE_FULL
    · rw [if_pos hfull] at h
      by_cases hp : i.pathKey = p
      · subst hp
        simp [getTrust, lookupA_eraseA_same] at h
      · rwa [getTrust, lookupA_eraseA_ne _ _ _ hp] at h
    · rw [if_neg hfull] at h
      by_cases hp : i.pathKey = p
      · subst hp
        by_cases hrem : (eraseA scopes i.scopeKey).isEmpty
        · rw [if_pos hrem] at h
          simp [getTrust, lookupA_eraseA_same] at h
        · rw [if_neg hrem] at h
          rw [getTrust, lookupA_insertA_same] at h
          simp only [Option.some_bind] at h
          by_cases hsc : i.scopeKey = s
          · rw [hsc, lookupA_eraseA_same] at h
            exact absurd h (by simp)
          · rw [lookupA_eraseA_ne _ _ _ hsc] at h
            rw [getTrust, hK]
            simpa using h
      · by_cases hrem : (eraseA scopes i.scopeKey).isEmpty
        · rw [if_pos hrem] at h
          rwa [getTrust, lookupA_eraseA_ne _ _ _ hp] at h
        · rw [if_neg hrem] at h
          rwa [getTrust, lookupA_insertA_ne _ _ _ _ hp] at h

/-- Case analysis on the trust state machine: an event either leaves the map
unchanged, anchors at its own slot, advances the full slot (possible only when
full trust already exists), or advances a range slot (possible only when trust
for that range or for full already exists). -/
lemma applyReadMetaTransition_cases (K : KnowledgeMap) (m : ReadCacheMetaV1) (q : Nat) :
    applyReadMetaTransition K m q = K
    ∨ ((m.mode = "full" ∨ m.mode = "full_fallback")
        ∧ applyReadMetaTransition K m q = setTrust K m.pathKey m.scopeKey m.servedHash q)
    ∨ (getTrust K m.pathKey SCOPE_FULL ≠ none
        ∧ applyReadMetaTransition K m q = setTrust K m.pathKey SCOPE_FULL m.servedHash q)
    ∨ (m.scopeKey ≠ SCOPE_FULL
        ∧ (getTrust K m.pathKey m.scopeKey ≠ none ∨ getTrust K m.pathKey SCOPE_FULL ≠ none)
        ∧ applyReadMetaTransition K m q = setTrust K m.pathKey m.scopeKey m.servedHash q) := by
  unfold applyReadMetaTransition
  by_cases h1 : m.mode = "full" ∨ m.mode = "full_fallback"
  · rw [if_pos h1]
    exact Or.inr (Or.inl ⟨h1, rfl⟩)
  · rw [if_neg h1]
    by_cases h2 : m.mode = "unchanged" ∧ m.scopeKey = SCOPE_FULL
    · rw [if_pos h2]
      cases hb : m.baseHash with
      | none => exact Or.inl rfl
      | some b =>
        dsimp only
        by_cases hbe : b = ""
        · rw [if_pos hbe]; exact Or.inl rfl
        · rw [if_neg hbe]
          cases hft : getTrust K m.pathKey SCOPE_FULL with
          | none => exact Or.inl rfl
          | some ft =>
            dsimp only
            by_cases hh : ft.hash ≠ b
            · rw [if_pos hh]; exact Or.inl rfl
            · rw [if_neg hh]
              by_cases hsv : m.servedHash ≠ b
              · rw [if_pos hsv]; exact Or.inl rfl
              · rw [if_neg hsv]
                exact Or.inr (Or.inr (Or.inl ⟨(by simp [hft]), rfl⟩))
    · rw [if_neg h2]
      by_cases h3 : m.mode = "diff" ∧ m.scopeKey = SCOPE_FULL
      · rw [if_pos h3]
        cases hb : m.baseHash with
        | none => exact Or.inl rfl
        | some b =>
          dsimp only
          by_cases hbe : b = ""
          · rw [if_pos hbe]; exact Or.inl rfl
          · rw [if_neg hbe]
            cases hft : getTrust K m.pathKey SCOPE_FULL with
            | none => exact Or.inl rfl
            | some ft =>
              dsimp only
              by_cases hh : ft.hash ≠ b
              · rw [if_pos hh]; exact Or.inl rfl
              · rw [if_neg hh]
                exact Or.inr (Or.inr (Or.inl ⟨(by simp [hft]), rfl⟩))
      · rw [if_neg h3]
        by_cases h4 : m.mode = "unchanged_range" ∧ m.scopeKey ≠ SCOPE_FULL
        · rw [if_pos h4]
          cases hb : m.baseHash with
          | none => exact Or.inl rfl
          | some b =>
            dsimp only
            by_cases hbe : b = ""
            · rw [if_pos hbe]; exact Or.inl rfl
            · rw [if_neg hbe, if_neg h4.2]
              by_cases hg :
                  ((match getTrust K m.pathKey m.scopeKey with
                    | some t => decide (t.hash = b)
                    | none => false)
                  || (match getTrust K m.pathKey SCOPE_FULL with
                    | some t => decide (t.hash = b)
                    | none => false)) = true
              · rw [if_pos hg]
                refine Or.inr (Or.inr (Or.inr ⟨h4.2, ?_, rfl⟩))
                rcases Bool.or_eq_true_iff.mp hg with hl | hr
                · left
                  cases hx : getTrust K m.pathKey m.scopeKey with
                  | none => rw [hx] at hl; exact absurd hl (by simp)
                  | some t => simp [hx]
                · right
                  cases hx : getTrust K m.pathKey SCOPE_FULL with
                  | none => rw [hx] at hr; exact absurd hr (by simp)
                  | some t => simp [hx]
              · rw [if_neg hg]; exact Or.inl rfl
        · rw [if_neg h4]; exact Or.inl rfl

lemma getTrust_applyInvalidation_none (K : KnowledgeMap) (i : RawInvalidation)
    (p s : String) (h : getTrust K p s = none) :
    getTrust (applyInvalidation K i) p s = none := by
  cases hres : getTrust (applyInvalidation K i) p s with
  | none => rfl
  | some t =>
    have := getTrust_applyInvalidation_some K i p s t hres
    rw [this] at h
    exact absurd h (by simp)

/-! ## Codec facts -/

lemma normalizeReadCacheMode_ne_full_fallback (v m : String)
    (h : normalizeReadCacheMode v = some m) : m ≠ "full_fallback" := by
  unfold normalizeReadCacheMode at h
  split_ifs at h
  all_goals
    first
    | exact Option.noConfusion h
    | (injection h with h; subst h; decide)

lemma parseReadCacheMetaV1_mode (raw : RawReadMeta) (m : ReadCacheMetaV1)
    (h : parseReadCacheMetaV1 raw = some m) :
    normalizeReadCacheMode raw.mode = some m.mode := by
  unfold parseReadCacheMetaV1 at h
  split at h
  · exact Option.noConfusion h
  split at h
  · exact Option.noConfusion h
  split at h
  · exact Option.noConfusion h
  split at h
  · exact Option.noConfusion h
  split at h
  · exact Option.noConfusion h
  rename_i mode heq
  dsimp only at h
  repeat' split at h
  all_goals try exact Option.noConfusion h
  all_goals (injection h with h; subst h; exact heq)

lemma extract_mode_ne_full_fallback (e : SessionEntry) (m : ReadCacheMetaV1)
    (h : extractReadMetaFromSessionEntry e = some m) : m.mode ≠ "full_fallback" := by
  cases e with
  | message id pid role tool rc =>
    simp only [extractReadMetaFromSessionEntry] at h
    by_cases hc : role = "toolResult" ∧ tool = "read"
    · rw [if_pos hc] at h
      cases rc with
      | none => exact Option.noConfusion h
      | some raw =>
        rw [Option.some_bind] at h
        exact normalizeReadCacheMode_ne_full_fallback raw.mode m.mode
          (parseReadCacheMetaV1_mode raw m h)
    · rw [if_neg hc] at h
      exact Option.noConfusion h
  | custom id pid ct d => exact Option.noConfusion h
  | compaction id pid fk => exact Option.noConfusion h
  | other id pid => exact Option.noConfusion h

/-! ## No-anchor preservation (trust bootstrapping) -/

lemma applyReadMetaTransition_preserves_none (K : KnowledgeMap) (m : ReadCacheMetaV1)
    (q : Nat) (path scope : String)
    (hmode : m.mode ≠ "full_fallback")
    (hA : ¬(m.pathKey = path ∧ m.scopeKey = scope
        ∧ (m.mode = "full" ∨ m.mode = "baseline_fallback")))
    (hAF : ¬(m.pathKey = path ∧ m.scopeKey = SCOPE_FULL
        ∧ (m.mode = "full" ∨ m.mode = "baseline_fallback")))
    (hs : getTrust K path scope = none) (hf : getTrust K path SCOPE_FULL = none) :
    getTrust (applyReadMetaTransition K m q) path scope = none ∧
      getTrust (applyReadMetaTransition K m q) path SCOPE_FULL = none := by
  rcases applyReadMetaTransition_cases K m q with hE | ⟨hm, hE⟩ | ⟨hft, hE⟩ | ⟨hsc, hg, hE⟩
  · rw [hE]; exact ⟨hs, hf⟩
  · have hfull : m.mode = "full" := by
      rcases hm with h | h
      · exact h
      · exact absurd h hmode
    rw [hE]
    constructor
    · rw [getTrust_setTrust_ne _ _ _ _ _ _ _ (fun hcc => hA ⟨hcc.1, hcc.2, Or.inl hfull⟩)]
      exact hs
    · rw [getTrust_setTrust_ne _ _ _ _ _ _ _ (fun hcc => hAF ⟨hcc.1, hcc.2, Or.inl hfull⟩)]
      exact hf
  · by_cases hp : m.pathKey = path
    · rw [hp] at hft; exact absurd hf hft
    · rw [hE]
      constructor
      · rw [getTrust_setTrust_ne _ _ _ _ _ _ _ (fun hcc => hp hcc.1)]; exact hs
      · rw [getTrust_setTrust_ne _ _ _ _ _ _ _ (fun hcc => hp hcc.1)]; exact hf
  · by_cases hp : m.pathKey = path
    · by_cases hss : m.scopeKey = scope
      · rw [hp, hss] at hg
        rcases hg with hgl | hgr
        · exact absurd hs hgl
        · exact absurd hf hgr
      · rw [hE]
        constructor
        · rw [getTrust_setTrust_ne _ _ _ _ _ _ _ (fun hcc => hss hcc.2)]; exact hs
        · rw [getTrust_setTrust_ne _ _ _ _ _ _ _ (fun hcc => hsc hcc.2)]; exact hf
    · rw [hE]
      constructor
      · rw [getTrust_setTrust_ne _ _ _ _ _ _ _ (fun hcc => hp hcc.1)]; exact hs
      · rw [getTrust_setTrust_ne _ _ _ _ _ _ _ (fun hcc => hp hcc.1)]; exact hf

lemma isAnchorEntryFor_of_extract (e : SessionEntry) (m : ReadCacheMetaV1)
    (path scope : String) (hex : extractReadMetaFromSessionEntry e = some m)
    (h1 : m.pathKey = path) (h2 : m.scopeKey = scope)
    (h3 : m.mode = "full" ∨ m.mode = "baseline_fallback") :
    isAnchorEntryFor e path scope = true := by
  unfold isAnchorEntryFor
  rw [hex]
  rcases h3 with h3 | h3 <;> simp [h1, h2, h3]

lemma replayAux_preserves_none (l : List SessionEntry) (K : KnowledgeMap) (n : Nat)
    (path scope : String)
    (hAs : ∀ e ∈ l, isAnchorEntryFor e path scope = false)
    (hAf : ∀ e ∈ l, isAnchorEntryFor e path SCOPE_FULL = false)
    (hs : getTrust K path scope = none) (hf : getTrust K path SCOPE_FULL = none) :
    getTrust (replayAux l K n) path scope = none ∧
      getTrust (replayAux l K n) path SCOPE_FULL = none := by
  induction l generalizing K n with
  | nil => exact ⟨hs, hf⟩
  | cons e rest ih =>
    have hAe := hAs e (by simp)
    have hAfe := hAf e (by simp)
    have hAs' : ∀ x ∈ rest, isAnchorEntryFor x path scope = false :=
      fun x hx => hAs x (by simp [hx])
    have hAf' : ∀ x ∈ rest, isAnchorEntryFor x path SCOPE_FULL = false :=
      fun x hx => hAf x (by simp [hx])
    cases hex : extractReadMetaFromSessionEntry e with
    | some meta =>
      simp only [replayAux, hex]
      have hA : ¬(meta.pathKey = path ∧ meta.scopeKey = scope
          ∧ (meta.mode = "full" ∨ meta.mode = "baseline_fallback")) := by
        rintro ⟨h1, h2, h3⟩
        rw [isAnchorEntryFor_of_extract e meta path scope hex h1 h2 h3] at hAe
        exact absurd hAe (by simp)
      have hAF : ¬(meta.pathKey = path ∧ meta.scopeKey = SCOPE_FULL
          ∧ (meta.mode = "full" ∨ meta.mode = "baseline_fallback")) := by
        rintro ⟨h1, h2, h3⟩
        rw [isAnchorEntryFor_of_extract e meta path SCOPE_FULL hex h1 h2 h3] at hAfe
        exact absurd hAfe (by simp)
      have hmf := extract_mode_ne_full_fallback e meta hex
      have hpres := applyReadMetaTransition_preserves_none K meta (n + 1) path scope
        hmf hA hAF hs hf
      exact ih _ _ hAs' hAf' hpres.1 hpres.2
    | none =>
      cases hinv : extractInvalidationFromSessionEntry e with
      | some inv =>
        simp only [replayAux, hex, hinv]
        exact ih _ _ hAs' hAf' (getTrust_applyInvalidation_none K inv path scope hs)
          (getTrust_applyInvalidation_none K inv path SCOPE_FULL hf)
      | none =>
        simp only [replayAux, hex, hinv]
        exact ih _ _ hAs' hAf' hs hf

/-! ## Sequence bounds for replayed trust -/

lemma seqBound_nil (n : Nat) : SeqBound [] n := by
  intro p s t ht
  simp [getTrust, lookupA] at ht

lemma seqBound_mono (K : KnowledgeMap) (n n' : Nat) (h : SeqBound K n) (hle : n ≤ n') :
    SeqBound K n' :=
  fun p s t ht => le_trans (h p s t ht) hle

lemma getTrust_setTrust_or (K : KnowledgeMap) (p0 s0 h0 : String) (q : Nat) (p s : String)
    (t : ScopeTrust) (ht : getTrust (setTrust K p0 s0 h0 q) p s = some t) :
    t = ⟨h0, q⟩ ∨ getTrust K p s = some t := by
  by_cases hc : p0 = p ∧ s0 = s
  · obtain ⟨h1, h2⟩ := hc
    subst h1; subst h2
    rw [getTrust_setTrust_same] at ht
    exact Or.inl (Option.some.inj ht).symm
  · exact Or.inr (by rwa [getTrust_setTrust_ne _ _ _ _ _ _ _ hc] at ht)

lemma seqBound_applyReadMetaTransition (K : KnowledgeMap) (m : ReadCacheMetaV1) (n : Nat)
    (h : SeqBound K n) : SeqBound (applyReadMetaTransition K m (n + 1)) (n + 1) := by
  have hstep : ∀ p0 s0 h0, SeqBound (setTrust K p0 s0 h0 (n + 1)) (n + 1) := by
    intro p0 s0 h0 p s t ht
    rcases getTrust_setTrust_or K p0 s0 h0 (n + 1) p s t ht with hnew | hold
    · rw [hnew]
    · exact le_trans (h p s t hold) (Nat.le_succ n)
  rcases applyReadMetaTransition_cases K m (n + 1) with hE | ⟨_, hE⟩ | ⟨_, hE⟩ | ⟨_, _, hE⟩ <;>
    rw [hE]
  · exact seqBound_mono K n (n + 1) h (Nat.le_succ n)
  all_goals exact hstep _ _ _

lemma seqBound_applyInvalidation (K : KnowledgeMap) (i : RawInvalidation) (n : Nat)
    (h : SeqBound K n) : SeqBound (applyInvalidation K i) n :=
  fun p s t ht => h p s t (getTrust_applyInvalidation_some K i p s t ht)

lemma seqBound_replayAux (l : List SessionEntry) (K : KnowledgeMap) (n : Nat)
    (h : SeqBound K n) : SeqBound (replayAux l K n) (n + countValidMetas l) := by
  induction l generalizing K n with
  | nil => simpa [replayAux, countValidMetas] using h
  | cons e rest ih =>
    cases hex : extractReadMetaFromSessionEntry e with
    | some meta =>
      simp only [replayAux, hex]
      have h2 := ih (applyReadMetaTransition K meta (n + 1)) (n + 1)
        (seqBound_applyReadMetaTransition K meta n h)
      have hcount : (n + 1) + countValidMetas rest = n + countValidMetas (e :: rest) := by
        simp [countValidMetas, List.countP_cons, hex]
        omega
      rwa [hcount] at h2
    | none =>
      have hcount : countValidMetas (e :: rest) = countValidMetas rest := by
        simp [countValidMetas, List.countP_cons, hex]
      cases hinv : extractInvalidationFromSessionEntry e with
      | some inv =>
        simp only [replayAux, hex, hinv, hcount]
        exact ih _ _ (seqBound_applyInvalidation K inv n h)
      | none =>
        simp only [replayAux, hex, hinv, hcount]
        exact ih _ _ h

/-! ## Replay boundary lemmas -/

lemma lastCompaction_none (l : List SessionEntry) (i : Nat)
    (h : ∀ e ∈ l, isCompactionEntry e = false) : lastCompaction l i = none := by
  induction l generalizing i with
  | nil => rfl
  | cons e rest ih =>
    have he := h e (by simp)
    simp only [lastCompaction, ih (i + 1) (fun x hx => h x (by simp [hx]))]
    cases e with
    | compaction id pid fk => exact absurd he (by simp [isCompactionEntry])
    | message id pid role tool rc => rfl
    | custom id pid ct d => rfl
    | other id pid => rfl

lemma lastCompaction_append (pre post : List SessionEntry) (id : String)
    (pid fk : Option String) (i : Nat)
    (hpost : ∀ e ∈ post, isCompactionEntry e = false) :
    lastCompaction (pre ++ SessionEntry.compaction id pid fk :: post) i
      = some (i + pre.length, id) := by
  induction pre generalizing i with
  | nil =>
    simp only [List.nil_append, lastCompaction, lastCompaction_none post (i + 1) hpost]
    simp
  | cons e rest ih =>
    simp only [List.cons_append, lastCompaction]
    rw [List.append_eq, ih (i + 1)]
    have harith : (i + 1) + rest.length = i + (rest.length + 1) := by omega
    simp [List.length_cons, harith]

lemma lastCompaction_map_withFirstKept (l : List SessionEntry)
    (g : Option String → Option String) (i : Nat) :
    lastCompaction (l.map (withFirstKept g)) i = lastCompaction l i := by
  induction l generalizing i with
  | nil => rfl
  | cons e rest ih =>
    simp only [List.map_cons, lastCompaction, ih (i + 1)]
    cases e <;> rfl

/-! ## Blocker scan lemma -/

lemma rangeBlockedAux_append_inv (pathKey scopeKey : String)
    (l rest : List SessionEntry) (inv : SessionEntry)
    (hl : ∀ e ∈ l, isAnchorEntryFor e pathKey scopeKey = false)
    (hinv1 : isAnchorEntryFor inv pathKey scopeKey = false)
    (hinv2 : isInvalidationEntryFor inv pathKey scopeKey = true) :
    rangeBlockedAux pathKey scopeKey (l ++ inv :: rest) = true := by
  induction l with
  | nil => simp [rangeBlockedAux, hinv1, hinv2]
  | cons e tail ih =>
    have he := hl e (by simp)
    by_cases hei : isInvalidationEntryFor e pathKey scopeKey = true
    · simp [rangeBlockedAux, he, hei]
    · simp [rangeBlockedAux, he, hei, ih (fun x hx => hl x (by simp [hx]))]

/-! ## Scope-token shape -/

lemma scopeRange_ne_full (a b : Int) : scopeRange a b ≠ SCOPE_FULL := by
  intro h
  have hd : (scopeRange a b).data = SCOPE_FULL.data := by rw [h]
  simp only [scopeRange, SCOPE_FULL, String.data_append] at hd
  simp [List.append_assoc] at hd

/-! ## Key-count lemmas for the object store -/

lemma countA_eq_zero_of_lookupA_none {α : Type} (l : List (String × α)) (k : String)
    (h : lookupA l k = none) : countA l k = 0 := by
  induction l with
  | nil => rfl
  | cons hd tl ih =>
    by_cases hh : hd.1 = k
    · simp [lookupA, hh] at h
    · simp only [lookupA, hh, if_false] at h
      simp only [countA, List.countP_cons, hh, decide_eq_true_eq, if_false, Nat.add_zero]
      exact ih h

lemma countA_insertA_of_lookupA_none {α : Type} (l : List (String × α)) (k : String) (v : α)
    (h : lookupA l k = none) : countA (insertA l k v) k = countA l k + 1 := by
  induction l with
  | nil => simp [insertA, countA, List.countP_cons]
  | cons hd tl ih =>
    by_cases hh : hd.1 = k
    · simp [lookupA, hh] at h
    · simp only [lookupA, hh, if_false] at h
      simp only [insertA, hh, if_false, countA, List.countP_cons, decide_eq_true_eq,
        Nat.add_zero]
      exact ih h

/-! ## Overlay sequencing lemmas -/

lemma ensureOverlayForLeaf_nextOverlaySeq (rt : ReplayRuntimeState) (sid : String)
    (lid : Option String) :
    (ensureOverlayForLeaf rt sid lid).2.nextOverlaySeq = rt.nextOverlaySeq := by
  unfold ensureOverlayForLeaf
  cases lookupA rt.overlayBySession sid with
  | none => rfl
  | some ov => by_cases h : ov.leafId = lid <;> simp [h]

lemma overlaySet_nextOverlaySeq (rt : ReplayRuntimeState) (sm : SessionView)
    (p s h : String) :
    (overlaySet rt sm p s h).nextOverlaySeq = rt.nextOverlaySeq + 1 := by
  unfold overlaySet
  simp [ensureOverlayForLeaf_nextOverlaySeq]

lemma getTrust_overlayKnowledgeOf_overlaySet (rt : ReplayRuntimeState) (sm : SessionView)
    (p s h : String) :
    getTrust (overlayKnowledgeOf (overlaySet rt sm p s h) sm.sessionId) p s
      = some ⟨h, rt.nextOverlaySeq⟩ := by
  unfold overlaySet overlayKnowledgeOf
  cases hlk : lookupA rt.overlayBySession sm.sessionId with
  | none =>
    simp [ensureOverlayForLeaf, hlk, lookupA_insertA_same, getTrust_setTrust_same]
  | some ov =>
    by_cases hleaf : ov.leafId = sm.leafId <;>
      simp [ensureOverlayForLeaf, hlk, hleaf, lookupA_insertA_same, getTrust_setTrust_same]

/-! ## Claim theorems -/

/-- C1: evaluation of the trust state machine at the failing input. The codec
(`normalizeReadCacheMode`) admits `baseline_fallback` and rejects
`full_fallback`, yet `applyReadMetaTransition`'s anchor branch tests
`full_fallback`: a replayed `baseline_fallback` event — which the claimed
transition table says sets `trust(pathKey, scopeKey) := {servedHash, seq}`
unconditionally — leaves the knowledge map unchanged, while a `full` event at
the same input anchors as the table says. -/
theorem c1_baseline_fallback_anchor_divergence :
    normalizeReadCacheMode "baseline_fallback" = some "baseline_fallback"
    ∧ normalizeReadCacheMode "full_fallback" = none
    ∧ applyReadMetaTransition []
        ⟨"/tmp/file.txt", "full", "h1", none, "baseline_fallback", 3, 1, 3, 10⟩ 1 = []
    ∧ applyReadMetaTransition []
        ⟨"/tmp/file.txt", "full", "h1", none, "full", 3, 1, 3, 10⟩ 1
        = [("/tmp/file.txt", [("full", ⟨"h1", 1⟩)])] := by
  decide

/-- C2 (counterexample): a replay window holding a full-scope anchor followed by
an `unchanged_range` event chaining off it produces trust for the range slot
`(pathKey, "r:1:2")` even though the window contains no anchor entry for that
slot, refuting the claim as stated. -/
theorem c2_counterexample :
    (∀ e ∈ [SessionEntry.message "e1" none "toolResult" "read"
          (some ⟨1, "/tmp/file.txt", "full", "h1", none, "full", 10, 1, 10, 100⟩),
        SessionEntry.message "e2" (some "e1") "toolResult" "read"
          (some ⟨1, "/tmp/file.txt", "r:1:2", "h2", some "h1", "unchanged_range", 10, 1, 2,
            100⟩)],
      isAnchorEntryFor e "/tmp/file.txt" "r:1:2" = false)
    ∧ getTrust
        (replayKnowledgeFromBranch
          [SessionEntry.message "e1" none "toolResult" "read"
            (some ⟨1, "/tmp/file.txt", "full", "h1", none, "full", 10, 1, 10, 100⟩),
          SessionEntry.message "e2" (some "e1") "toolResult" "read"
            (some ⟨1, "/tmp/file.txt", "r:1:2", "h2", some "h1", "unchanged_range", 10, 1, 2,
              100⟩)] 0)
        "/tmp/file.txt" "r:1:2" = some ⟨"h2", 2⟩ := by
  decide

/-- C2 (amended): for every replay window containing no anchor entry (mode
`full` or `baseline_fallback`) for `(pathKey, scopeKey)` — and, when `scopeKey`
is a range, no anchor entry for `(pathKey, full)` either — the replayed
knowledge map contains no trust for that slot. -/
theorem c2_no_anchor_no_trust (entries : List SessionEntry) (startIndex : Nat)
    (path scope : String)
    (hS : ∀ e ∈ entries.drop (min startIndex entries.length),
        isAnchorEntryFor e path scope = false)
    (hF : scope ≠ SCOPE_FULL → ∀ e ∈ entries.drop (min startIndex entries.length),
        isAnchorEntryFor e path SCOPE_FULL = false) :
    getTrust (replayKnowledgeFromBranch entries startIndex) path scope = none := by
  by_cases hsf : scope = SCOPE_FULL
  · subst hsf
    exact (replayAux_preserves_none _ [] 0 path SCOPE_FULL hS hS rfl rfl).1
  · exact (replayAux_preserves_none _ [] 0 path scope hS (hF hsf) rfl rfl).1

/-- C2 (witness): the amended theorem applied to a one-entry window holding
only a derived `unchanged_range` event. -/
theorem c2_no_anchor_no_trust_witness :
    getTrust
      (replayKnowledgeFromBranch
        [SessionEntry.message "e1" none "toolResult" "read"
          (some ⟨1, "/tmp/file.txt", "r:1:2", "h2", some "h1", "unchanged_range", 10, 1, 2,
            100⟩)] 0)
      "/tmp/file.txt" "r:1:2" = none :=
  c2_no_anchor_no_trust _ 0 "/tmp/file.txt" "r:1:2" (by decide) (fun _ => by decide)

/-- C3: on every branch, trust replay starts at index `c + 1` (clamped to the
window length) where `c` is the index of the latest compaction entry, at `0`
when the branch has no compaction entry, and rewriting every compaction's
`firstKeptEntryId` never changes the computed start index. -/
theorem c3_replay_boundary_strict :
    (∀ (pre post : List SessionEntry) (id : String) (pid fk : Option String),
      (∀ e ∈ post, isCompactionEntry e = false) →
      (findReplayStartIndex (pre ++ SessionEntry.compaction id pid fk :: post)).startIndex
        = min (pre.length + 1) (pre ++ SessionEntry.compaction id pid fk :: post).length)
    ∧ (∀ entries : List SessionEntry, (∀ e ∈ entries, isCompactionEntry e = false) →
        (findReplayStartIndex entries).startIndex = 0)
    ∧ (∀ (entries : List SessionEntry) (g : Option String → Option String),
        (findReplayStartIndex (entries.map (withFirstKept g))).startIndex
          = (findReplayStartIndex entries).startIndex) := by
  refine ⟨?_, ?_, ?_⟩
  · intro pre post id pid fk hpost
    unfold findReplayStartIndex
    rw [lastCompaction_append pre post id pid fk 0 hpost]
    simp
  · intro entries h
    unfold findReplayStartIndex
    rw [lastCompaction_none entries 0 h]
  · intro entries g
    unfold findReplayStartIndex
    rw [lastCompaction_map_withFirstKept entries g 0, List.length_map]

/-- C3 (witness): the boundary theorem applied to concrete branches. -/
theorem c3_replay_boundary_strict_witness :
    (findReplayStartIndex
        [SessionEntry.other "o1" none, SessionEntry.compaction "c1" none (some "o1"),
          SessionEntry.other "o2" (some "c1")]).startIndex = min 2 3
    ∧ (findReplayStartIndex [SessionEntry.other "o9" none]).startIndex = 0
    ∧ (findReplayStartIndex
          ([SessionEntry.compaction "c7" none (some "k")].map
            (withFirstKept (fun _ => none)))).startIndex
        = (findReplayStartIndex [SessionEntry.compaction "c7" none (some "k")]).startIndex :=
  ⟨c3_replay_boundary_strict.1 [SessionEntry.other "o1" none]
      [SessionEntry.other "o2" (some "c1")] "c1" none (some "o1") (by decide),
   c3_replay_boundary_strict.2.1 [SessionEntry.other "o9" none] (by decide),
   c3_replay_boundary_strict.2.2 [SessionEntry.compaction "c7" none (some "k")]
      (fun _ => none)⟩

/-- C4: for a range-scope request (with no invalidation blocker), base-candidate
selection returns nothing when neither exact-range nor full trust exists, the
unique candidate when exactly one exists, the one with the greater `seq` when
both exist, and the exact-range candidate on a `seq` tie; with no per-path
knowledge at all there is no candidate. -/
theorem c4_select_base_trust (pk : ScopeMap) (scopeKey : String)
    (hR : scopeKey ≠ SCOPE_FULL) :
    (lookupA pk scopeKey = none → lookupA pk SCOPE_FULL = none →
      selectBaseTrust (some pk) scopeKey false = none)
    ∧ (∀ t, lookupA pk scopeKey = some t → lookupA pk SCOPE_FULL = none →
        selectBaseTrust (some pk) scopeKey false = some t)
    ∧ (∀ t, lookupA pk scopeKey = none → lookupA pk SCOPE_FULL = some t →
        selectBaseTrust (some pk) scopeKey false = some t)
    ∧ (∀ te tf, lookupA pk scopeKey = some te → lookupA pk SCOPE_FULL = some tf →
        selectBaseTrust (some pk) scopeKey false
          = some (if tf.seq ≤ te.seq then te else tf)
        ∧ (te.seq = tf.seq → selectBaseTrust (some pk) scopeKey false = some te))
    ∧ selectBaseTrust none scopeKey false = none := by
  refine ⟨?_, ?_, ?_, ?_, rfl⟩
  · intro h1 h2
    simp [selectBaseTrust, hR, h1, h2]
  · intro t h1 h2
    simp [selectBaseTrust, hR, h1, h2]
  · intro t h1 h2
    simp [selectBaseTrust, hR, h1, h2]
  · intro te tf h1 h2
    have hsel : selectBaseTrust (some pk) scopeKey false
        = if tf.seq ≤ te.seq then some te else some tf := by
      simp [selectBaseTrust, hR, h1, h2]
    refine ⟨?_, fun heq => ?_⟩
    · rw [hsel]
      split <;> rfl
    · rw [hsel, if_pos (le_of_eq heq.symm)]

/-- C4 (witness): selection applied to a concrete per-path scope map where the
exact-range and full candidates tie on `seq`. -/
theorem c4_select_base_trust_witness :
    selectBaseTrust (some [("r:2:4", ⟨"a", 3⟩), ("full", ⟨"b", 3⟩)]) "r:2:4" false
      = some ⟨"a", 3⟩ :=
  ((c4_select_base_trust [("r:2:4", ⟨"a", 3⟩), ("full", ⟨"b", 3⟩)] "r:2:4"
      (by decide)).2.2.2.1 ⟨"a", 3⟩ ⟨"b", 3⟩ (by decide) (by decide)).2 rfl

/-- C5: on a branch carrying a range-scope invalidation for `(pathKey, R)` with
no subsequent range-scope anchor for `R`, the blocker computed for the branch
makes `selectBaseTrust` return no candidate for `R`, whatever trust (including
a later full-scope anchor's) the knowledge map holds. (`spec-modelled`:
`isRangeScopeBlockedByInvalidation` itself is reconstructed from §4.3 of the
specification, since the module defining it is absent from the sources.) -/
theorem c5_range_invalidation_blocks (before after : List SessionEntry)
    (pathKey scopeKey invId : String) (invParent : Option String) (atTime : Int)
    (hScope : isScopeKey scopeKey = true) (hNotFull : scopeKey ≠ SCOPE_FULL)
    (hPath : 0 < pathKey.length) (hAt : 0 < atTime)
    (hAfter : ∀ e ∈ after, isAnchorEntryFor e pathKey scopeKey = false) :
    ∀ pathKnowledge : Option ScopeMap,
      selectBaseTrust pathKnowledge scopeKey
        (isRangeScopeBlockedByInvalidation
          (before ++ SessionEntry.custom invId invParent READCACHE_CUSTOM_TYPE
            ⟨READCACHE_META_VERSION, "invalidate", pathKey, scopeKey, atTime⟩ :: after)
          pathKey scopeKey) = none := by
  intro pathKnowledge
  have hinv1 : isAnchorEntryFor
      (SessionEntry.custom invId invParent READCACHE_CUSTOM_TYPE
        ⟨READCACHE_META_VERSION, "invalidate", pathKey, scopeKey, atTime⟩)
      pathKey scopeKey = false := rfl
  have hinv2 : isInvalidationEntryFor
      (SessionEntry.custom invId invParent READCACHE_CUSTOM_TYPE
        ⟨READCACHE_META_VERSION, "invalidate", pathKey, scopeKey, atTime⟩)
      pathKey scopeKey = true := by
    simp [isInvalidationEntryFor, extractInvalidationFromSessionEntry,
      isReadCacheInvalidationV1, hScope, hPath, hAt]
  have hblocked : isRangeScopeBlockedByInvalidation
      (before ++ SessionEntry.custom invId invParent READCACHE_CUSTOM_TYPE
        ⟨READCACHE_META_VERSION, "invalidate", pathKey, scopeKey, atTime⟩ :: after)
      pathKey scopeKey = true := by
    unfold isRangeScopeBlockedByInvalidation
    rw [if_neg hNotFull, List.reverse_append, List.reverse_cons, List.append_assoc,
      List.singleton_append]
    exact rangeBlockedAux_append_inv pathKey scopeKey after.reverse before.reverse _
      (fun e he => hAfter e (List.mem_reverse.mp he)) hinv1 hinv2
  rw [hblocked]
  cases pathKnowledge with
  | none => rfl
  | some pk => simp [selectBaseTrust, hNotFull]

/-- C5 (witness): the blocker theorem applied to a branch holding only the
invalidation, against a knowledge map that does hold exact-range trust. -/
theorem c5_range_invalidation_blocks_witness :
    selectBaseTrust (some [("r:2:4", ⟨"a", 1⟩)]) "r:2:4"
      (isRangeScopeBlockedByInvalidation
        [SessionEntry.custom "i1" none READCACHE_CUSTOM_TYPE
          ⟨READCACHE_META_VERSION, "invalidate", "/tmp/file.txt", "r:2:4", 7⟩]
        "/tmp/file.txt" "r:2:4") = none :=
  c5_range_invalidation_blocks [] [] "/tmp/file.txt" "r:2:4" "i1" none 7
    (by decide) (by decide) (by decide) (by decide) (by simp)
    (some [("r:2:4", ⟨"a", 1⟩)])

/-- C6: for a file of `totalLines ≥ 1` lines and valid inputs, normalization
yields `start = offset ?? 1` and `end = start + limit - 1` (or `totalLines`)
clamped to `totalLines`, rejects `start > totalLines`, and the scope key is the
`full` sentinel exactly when the range spans `[1..totalLines]`, otherwise the
`r:start:end` token. -/
theorem c6_normalize_range_and_scope (offset limit : Option Int) (totalLines : Int)
    (hT : 1 ≤ totalLines)
    (hOff : ∀ o, offset = some o → 0 < o)
    (hLim : ∀ l, limit = some l → 0 < l) :
    (offset.getD 1 ≤ totalLines →
      normalizeOffsetLimit offset limit totalLines
        = some ⟨offset.getD 1,
            min (unclampedEndFor (offset.getD 1) limit totalLines) totalLines,
            totalLines⟩)
    ∧ (totalLines < offset.getD 1 → normalizeOffsetLimit offset limit totalLines = none)
    ∧ (∀ s e : Int, scopeKeyForRange s e totalLines = SCOPE_FULL ↔ (s = 1 ∧ e = totalLines)) := by
  have hmax : max 1 totalLines = totalLines := max_eq_right hT
  refine ⟨?_, ?_, ?_⟩
  · intro hstart
    rcases offset with _ | o
    · rw [Option.getD_none] at hstart
      rcases limit with _ | l
      · simp [normalizeOffsetLimit, unclampedEndFor, hmax, not_lt.mpr hstart]
      · have hpl := hLim l rfl
        simp [normalizeOffsetLimit, unclampedEndFor, hmax, not_lt.mpr hstart,
          not_le.mpr hpl]
    · rw [Option.getD_some] at hstart
      have hpo := hOff o rfl
      rcases limit with _ | l
      · simp [normalizeOffsetLimit, unclampedEndFor, hmax, not_lt.mpr hstart,
          not_le.mpr hpo]
      · have hpl := hLim l rfl
        simp [normalizeOffsetLimit, unclampedEndFor, hmax, not_lt.mpr hstart,
          not_le.mpr hpo, not_le.mpr hpl]
  · intro hgt
    rcases offset with _ | o
    · rw [Option.getD_none] at hgt
      rcases limit with _ | l
      · simp [normalizeOffsetLimit, hmax, hgt]
      · have hpl := hLim l rfl
        simp [normalizeOffsetLimit, hmax, hgt, not_le.mpr hpl]
    · rw [Option.getD_some] at hgt
      have hpo := hOff o rfl
      rcases limit with _ | l
      · simp [normalizeOffsetLimit, hmax, hgt, not_le.mpr hpo]
      · have hpl := hLim l rfl
        simp [normalizeOffsetLimit, hmax, hgt, not_le.mpr hpo, not_le.mpr hpl]
  · intro s e
    constructor
    · intro h
      by_contra hne
      unfold scopeKeyForRange at h
      rw [if_neg hne] at h
      exact scopeRange_ne_full s e h
    · rintro ⟨hs, he⟩
      unfold scopeKeyForRange
      rw [if_pos ⟨hs, he⟩]

/-- C6 (witness): normalization and scope keys at concrete inputs. -/
theorem c6_normalize_range_and_scope_witness :
    normalizeOffsetLimit (some 2) (some 3) 5 = some ⟨2, 4, 5⟩
    ∧ normalizeOffsetLimit (some 9) none 5 = none
    ∧ (scopeKeyForRange 2 4 5 = SCOPE_FULL ↔ ((2 : Int) = 1 ∧ (4 : Int) = 5)) := by
  have h := c6_normalize_range_and_scope (some 2) (some 3) 5 (by decide)
    (fun o ho => by cases ho; decide) (fun l hl => by cases hl; decide)
  have h9 := c6_normalize_range_and_scope (some 9) none 5 (by decide)
    (fun o ho => by cases ho; decide) (fun l hl => by cases hl)
  exact ⟨by simpa using h.1 (by decide), by simpa using h9.2.1 (by decide), h.2.2 2 4⟩

/-- C7: evaluation of the sensitive-path bypass at the failing inputs. The
built-in pattern list holds only four patterns, so while `.env*`-, `.pem`-,
`.key`- and `.p12`-matching paths are bypassed, paths matching the other nine
claimed patterns (`*.pfx`, `*.crt`, `*.cer`, `*.der`, `*.pk8`, `id_rsa`,
`id_ed25519`, `.npmrc`, `.netrc`) are not excluded. -/
theorem c7_excluded_patterns_incomplete :
    DEFAULT_EXCLUDED_PATH_PATTERNS = [".env*", "*.pem", "*.key", "*.p12"]
    ∧ isExcludedPath "/repo/.env.local" = true
    ∧ isExcludedPath "/repo/server.pem" = true
    ∧ isExcludedPath "/repo/server.key" = true
    ∧ isExcludedPath "/repo/bundle.p12" = true
    ∧ isExcludedPath "/repo/cert.pfx" = false
    ∧ isExcludedPath "/repo/cert.crt" = false
    ∧ isExcludedPath "/repo/cert.cer" = false
    ∧ isExcludedPath "/repo/cert.der" = false
    ∧ isExcludedPath "/repo/key.pk8" = false
    ∧ isExcludedPath "/repo/id_rsa" = false
    ∧ isExcludedPath "/repo/id_ed25519" = false
    ∧ isExcludedPath "/repo/.npmrc" = false
    ∧ isExcludedPath "/repo/.netrc" = false := by
  decide

/-- C8: `persistObjectIfAbsent` never overwrites — an existing object makes the
call return `written: false` with the store untouched; a rename collision with
a concurrent writer discards the temp file and succeeds with `written: false`;
and two sequential calls with the same `(hash, text)` write exactly once,
leaving a single object file for that path and returning `written: false` with
an unchanged store on the repeat. -/
theorem c8_persist_object_if_absent (σ : ObjectStore)
    (repoRoot hash text tempName tempName2 : String)
    (hHash : isValidHash hash = true) :
    (∀ content race, lookupA σ.objects (objectPathForHash repoRoot hash) = some content →
      persistObjectIfAbsent σ repoRoot hash text tempName race
        = some (⟨hash, objectPathForHash repoRoot hash, false⟩, σ))
    ∧ (∀ other, lookupA σ.objects (objectPathForHash repoRoot hash) = none →
        lookupA σ.tmps tempName = none →
        persistObjectIfAbsent σ repoRoot hash text tempName
            (.concurrent other true)
          = some (⟨hash, objectPathForHash repoRoot hash, false⟩,
              { objects := insertA σ.objects (objectPathForHash repoRoot hash) other,
                tmps := eraseA (insertA σ.tmps tempName text) tempName })
        ∧ lookupA (eraseA (insertA σ.tmps tempName text) tempName) tempName = none)
    ∧ (lookupA σ.objects (objectPathForHash repoRoot hash) = none →
        lookupA σ.tmps tempName = none →
        ∃ σ1, persistObjectIfAbsent σ repoRoot hash text tempName .isolated
            = some (⟨hash, objectPathForHash repoRoot hash, true⟩, σ1)
          ∧ persistObjectIfAbsent σ1 repoRoot hash text tempName2 .isolated
            = some (⟨hash, objectPathForHash repoRoot hash, false⟩, σ1)
          ∧ countA σ1.objects (objectPathForHash repoRoot hash) = 1) := by
  refine ⟨?_, ?_, ?_⟩
  · intro content race h
    simp [persistObjectIfAbsent, hHash, h]
  · intro other h1 h2
    constructor
    · simp [persistObjectIfAbsent, hHash, h1, h2]
    · exact lookupA_eraseA_same _ _
  · intro h1 h2
    refine ⟨ObjectStore.mk (insertA σ.objects (objectPathForHash repoRoot hash) text)
      (eraseA (insertA σ.tmps tempName text) tempName), ?_, ?_, ?_⟩
    · simp [persistObjectIfAbsent, hHash, h1, h2]
    · simp [persistObjectIfAbsent, hHash, lookupA_insertA_same]
    · simp only [countA_insertA_of_lookupA_none σ.objects _ text h1,
        countA_eq_zero_of_lookupA_none σ.objects _ h1]

/-- C8 (witness): the idempotence clause applied to an empty store with a
concrete 64-hex hash. -/
theorem c8_persist_object_if_absent_witness :
    ∃ σ1,
      persistObjectIfAbsent ⟨[], []⟩ "repo"
          "aaaaaaaaaaaaaaaaaaaaaaaaaaaaaaaaaaaaaaaaaaaaaaaaaaaaaaaaaaaaaaaa"
          "body" "tmp1" .isolated
        = some (⟨"aaaaaaaaaaaaaaaaaaaaaaaaaaaaaaaaaaaaaaaaaaaaaaaaaaaaaaaaaaaaaaaa",
            objectPathForHash "repo"
              "aaaaaaaaaaaaaaaaaaaaaaaaaaaaaaaaaaaaaaaaaaaaaaaaaaaaaaaaaaaaaaaa",
            true⟩, σ1)
      ∧ persistObjectIfAbsent σ1 "repo"
          "aaaaaaaaaaaaaaaaaaaaaaaaaaaaaaaaaaaaaaaaaaaaaaaaaaaaaaaaaaaaaaaa"
          "body" "tmp2" .isolated
        = some (⟨"aaaaaaaaaaaaaaaaaaaaaaaaaaaaaaaaaaaaaaaaaaaaaaaaaaaaaaaaaaaaaaaa",
            objectPathForHash "repo"
              "aaaaaaaaaaaaaaaaaaaaaaaaaaaaaaaaaaaaaaaaaaaaaaaaaaaaaaaaaaaaaaaa",
            false⟩, σ1)
      ∧ countA σ1.objects
          (objectPathForHash "repo"
            "aaaaaaaaaaaaaaaaaaaaaaaaaaaaaaaaaaaaaaaaaaaaaaaaaaaaaaaaaaaaaaaa") = 1 :=
  (c8_persist_object_if_absent ⟨[], []⟩ "repo"
    "aaaaaaaaaaaaaaaaaaaaaaaaaaaaaaaaaaaaaaaaaaaaaaaaaaaaaaaaaaaaaaaa"
    "body" "tmp1" "tmp2" (by decide)).2.2 rfl rfl

/-- C9: every trust sequence produced by replaying a window with fewer than
`OVERLAY_SEQ_START = 10^9` valid `ReadMeta` entries is strictly below the
overlay sequence the runtime will assign next (the runtime starts at
`OVERLAY_SEQ_START` and `overlaySet` only increments), so an overlay write
out-ranks every replay-derived trust for the leaf. -/
theorem c9_overlay_seq_outranks_replay (entries : List SessionEntry) (startIndex : Nat)
    (rt : ReplayRuntimeState) (sm : SessionView)
    (path scope pathKey scopeKey servedHash : String) (t : ScopeTrust)
    (hBand : OVERLAY_SEQ_START ≤ rt.nextOverlaySeq)
    (hCount : countValidMetas (entries.drop (min startIndex entries.length))
        < OVERLAY_SEQ_START)
    (hT : getTrust (replayKnowledgeFromBranch entries startIndex) path scope = some t) :
    t.seq < overlayAssignedSeq rt
    ∧ createReplayRuntimeState.nextOverlaySeq = OVERLAY_SEQ_START
    ∧ OVERLAY_SEQ_START ≤ (overlaySet rt sm pathKey scopeKey servedHash).nextOverlaySeq := by
  have hsb := seqBound_replayAux (entries.drop (min startIndex entries.length)) [] 0
    (seqBound_nil 0)
  have hle : t.seq ≤ countValidMetas (entries.drop (min startIndex entries.length)) := by
    have := hsb path scope t hT
    simpa using this
  refine ⟨lt_of_lt_of_le (lt_of_le_of_lt hle hCount) hBand, rfl, ?_⟩
  rw [overlaySet_nextOverlaySeq]
  exact le_trans hBand (Nat.le_succ _)

/-- C9 (witness): the bound applied to a one-anchor window against the freshly
created runtime state. -/
theorem c9_overlay_seq_outranks_replay_witness :
    (⟨"h1", 1⟩ : ScopeTrust).seq < overlayAssignedSeq createReplayRuntimeState
    ∧ createReplayRuntimeState.nextOverlaySeq = OVERLAY_SEQ_START
    ∧ OVERLAY_SEQ_START ≤ (overlaySet createReplayRuntimeState ⟨"s", none, [], []⟩
        "/tmp/file.txt" "full" "h1").nextOverlaySeq :=
  c9_overlay_seq_outranks_replay
    [SessionEntry.message "e1" none "toolResult" "read"
      (some ⟨1, "/tmp/file.txt", "full", "h1", none, "full", 3, 1, 3, 10⟩)] 0
    createReplayRuntimeState ⟨"s", none, [], []⟩
    "/tmp/file.txt" "full" "/tmp/file.txt" "full" "h1" ⟨"h1", 1⟩
    (by decide) (by decide) (by decide)

/-- C10: the completion path is independent of object-store success — whatever
state the swallowed persist attempt left the store in, the returned marker text
and metadata record are identical, the overlay still receives
`(pathKey, scopeKey, currentHash)` at the runtime's next overlay sequence, and
when the attempt stored nothing the trust is recorded for a hash whose blob is
absent from the store. -/
theorem c10_overlay_independent_of_persist (σok σfail : ObjectStore)
    (rt : ReplayRuntimeState) (sm : SessionView)
    (pathKey scopeKey currentHash baseHash : String)
    (totalLines start endLine bytes : Int) :
    ((unchangedCompletion σok rt sm pathKey scopeKey currentHash baseHash
        totalLines start endLine bytes).1
      = (unchangedCompletion σfail rt sm pathKey scopeKey currentHash baseHash
        totalLines start endLine bytes).1)
    ∧ ((unchangedCompletion σfail rt sm pathKey scopeKey currentHash baseHash
        totalLines start endLine bytes).2.2
      = (unchangedCompletion σok rt sm pathKey scopeKey currentHash baseHash
        totalLines start endLine bytes).2.2)
    ∧ getTrust
        (overlayKnowledgeOf
          (unchangedCompletion σfail rt sm pathKey scopeKey currentHash baseHash
            totalLines start endLine bytes).2.2 sm.sessionId)
        pathKey scopeKey = some ⟨currentHash, rt.nextOverlaySeq⟩
    ∧ ((unchangedCompletion σfail rt sm pathKey scopeKey currentHash baseHash
        totalLines start endLine bytes).2.1 = σfail)
    ∧ (∀ repoRoot,
        lookupA σfail.objects (objectPathForHash repoRoot currentHash) = none →
        lookupA (unchangedCompletion σfail rt sm pathKey scopeKey currentHash baseHash
            totalLines start endLine bytes).2.1.objects
          (objectPathForHash repoRoot currentHash) = none) := by
  refine ⟨rfl, rfl, ?_, rfl, fun repoRoot hmiss => hmiss⟩
  exact getTrust_overlayKnowledgeOf_overlaySet rt sm pathKey scopeKey currentHash

/-- C10 (witness): the completion-path theorem at concrete inputs, with a
store whose persist attempt failed before writing the blob. -/
theorem c10_overlay_independent_of_persist_witness :
    lookupA
      (unchangedCompletion ⟨[], []⟩ createReplayRuntimeState ⟨"s", none, [], []⟩
        "/tmp/file.txt" "full" "h2" "h1" 3 1 3 10).2.1.objects
      (objectPathForHash "repo" "h2") = none
    ∧ getTrust
        (overlayKnowledgeOf
          (unchangedCompletion ⟨[], []⟩ createReplayRuntimeState ⟨"s", none, [], []⟩
            "/tmp/file.txt" "full" "h2" "h1" 3 1 3 10).2.2 "s")
        "/tmp/file.txt" "full" = some ⟨"h2", createReplayRuntimeState.nextOverlaySeq⟩ :=
  ⟨(c10_overlay_independent_of_persist ⟨[], []⟩ ⟨[], []⟩ createReplayRuntimeState
      ⟨"s", none, [], []⟩ "/tmp/file.txt" "full" "h2" "h1" 3 1 3 10).2.2.2.2 "repo" rfl,
   (c10_overlay_independent_of_persist ⟨[], []⟩ ⟨[], []⟩ createReplayRuntimeState
      ⟨"s", none, [], []⟩ "/tmp/file.txt" "full" "h2" "h1" 3 1 3 10).2.2.1⟩

end PiReadcache
